import Mathlib

/-!
Shallow embedding of the MPS base class of tenpy (src/tenpy/networks/mps.py)
and verification of its specification claims.

Modelling conventions:
- npc.Array (the symmetry-block-sparse tensor of tenpy.linalg.np_conserved,
  an external capability per the spec) is modelled as a tensor with a list of
  named legs, a dimension per leg and an entry function indexed by
  assignments of indices to leg names.
- numpy floats are modelled by an exact scalar type K (a commutative ring);
  float exponents of the canonical-form bookkeeping are modelled by rationals.
- the numpy elementwise power S**e and the external npc.pinv are abstracted
  into an ExtOps record; the algebraic laws of powers of nonzero (positive)
  singular values are stated as the PowLaws predicate.
- Python exceptions are modelled by the Except monad with an Err type.
-/

/-- Err models the Python exceptions raised by the source code. -/
inductive Err where
  | valueError (msg : String)
  | typeError (msg : String)
  | assertionError
  | zeroDivisionError
  | indexError
deriving DecidableEq, Repr

/-- NpcArr models an npc.Array: labelled legs, a dimension for each leg name
and an entry function indexed by an assignment of indices to leg names. -/
structure NpcArr (K : Type) where
  labels : List String
  dim : String → ℕ
  entry : (String → ℕ) → K

/-- Mat2 models a 2-D npc.Array used as a matrix-valued singular value block
(the rank-2 check of the source holds by construction of this variant). -/
structure Mat2 (K : Type) where
  d0 : ℕ
  d1 : ℕ
  val : ℕ → ℕ → K

/-- Spectrum models one entry of the singular value list: either a 1-D numpy
vector or a 2-D npc.Array (the DMRG-mixer case), as a tagged variant. -/
inductive Spectrum (K : Type) where
  | vec (len : ℕ) (val : ℕ → K)
  | mat (M : Mat2 K)

/-- ExtOps collects the external numerical capabilities consumed by the MPS
code: the numpy elementwise power, npc.pinv, and the npc sanity and
leg-contractibility checks that test_sanity delegates to. -/
structure ExtOps (K : Type) where
  rpow : K → ℚ → K
  pinv : Mat2 K → ℚ → Mat2 K
  arr_test_sanity : NpcArr K → Except Err Unit
  test_contractible : NpcArr K → NpcArr K → Except Err Unit

/-- BCond models the valid boundary conditions of the MPS class. -/
inductive BCond where
  | finite
  | segment
  | infinite
deriving DecidableEq, Repr

/-- MPSState models the mutable state of an MPS instance: sites (by their
local dimension), the tensor list _B, the singular value list _S, the
boundary condition and the per-site canonical form tags. -/
structure MPSState (K : Type) where
  sites : List ℕ
  Bs : List (NpcArr K)
  Ss : List (Spectrum K)
  bc : BCond
  form : List (Option (ℚ × ℚ))

/-- Number of physical sites, MPS.L in the source. -/
def MPSState.L {K : Type} (st : MPSState K) : ℕ := st.sites.length

/-- MPS.finite of the source: True for finite and segment, False for
infinite boundary conditions. -/
def mps_finiteB {K : Type} (st : MPSState K) : Bool :=
  match st.bc with
  | .infinite => false
  | _ => true

/-- Default tensor used to totalize list indexing (all in-range in the
verified statements). -/
def dummyArr (K : Type) [CommRing K] : NpcArr K :=
  { labels := [], dim := fun _ => 0, entry := fun _ => 0 }

/-- Default spectrum used to totalize list indexing; also models
np.ones([1]) for the trivial boundary bonds. -/
def onesSpec (K : Type) [CommRing K] : Spectrum K :=
  Spectrum.vec 1 (fun _ => 1)

/-- Default pseudo-inverse cutoff 1.e-16 of the source signatures. -/
def default_cutoff : ℚ := 1 / 10 ^ 16

/-- FormArg models the form argument accepted by the public API: one of the
four canonical names, None, or an explicit exponent pair. -/
inductive FormArg where
  | A
  | B
  | C
  | G
  | noneF
  | pair (nuL nuR : ℚ)
deriving DecidableEq, Repr

/-- MPS._to_valid_form together with the _valid_forms table:
A = (1, 0), C = (0.5, 0.5), B = (0, 1), G = (0, 0), None = None;
an explicit tuple is passed through. -/
def toValidForm : FormArg → Option (ℚ × ℚ)
  | .A => some (1, 0)
  | .C => some (1 / 2, 1 / 2)
  | .B => some (0, 1)
  | .G => some (0, 0)
  | .noneF => none
  | .pair a b => some (a, b)

/-- MPS._parse_form for a single form choice: the choice holds for all of
the L entries. -/
def parse_form (L : ℕ) (f : FormArg) : List (Option (ℚ × ℚ)) :=
  List.replicate L (toValidForm f)

/-- Negative-index wrap i += L of MPS._to_valid_index. -/
def pyWrapNeg (L : ℕ) (i0 : ℤ) : ℤ :=
  if i0 < 0 then i0 + L else i0

/-- MPS._to_valid_index: infinite boundary reduces modulo L (Python modulo;
division by zero if L = 0), finite and segment interpret negative indices
from the end and then require 0 <= i < L. -/
def toValidIndex {K : Type} (st : MPSState K) (i0 : ℤ) : Except Err ℕ :=
  if mps_finiteB st = false then
    if st.L = 0 then Except.error Err.zeroDivisionError
    else Except.ok (i0 % (st.L : ℤ)).toNat
  else
    if (st.L : ℤ) ≤ pyWrapNeg st.L i0 ∨ pyWrapNeg st.L i0 < 0 then
      Except.error (Err.valueError ("i out of bounds for finite MPS"))
    else Except.ok (pyWrapNeg st.L i0).toNat

/-- MPS.get_SL for an already resolved site index (the resolution performed
by the source is the identity on the resolved indices used internally). -/
def get_SL {K : Type} [CommRing K] (st : MPSState K) (i : ℕ) : Spectrum K :=
  st.Ss.getD i (onesSpec K)

/-- MPS.get_SR for an already resolved site index. -/
def get_SR {K : Type} [CommRing K] (st : MPSState K) (i : ℕ) : Spectrum K :=
  st.Ss.getD (i + 1) (onesSpec K)

/-- MPS.set_SL: store S left of site i; for infinite boundary a write at
resolved index 0 is mirrored to _S[L]. -/
def set_SL {K : Type} (st : MPSState K) (i0 : ℤ) (S : Spectrum K) :
    Except Err (MPSState K) := do
  let i ← toValidIndex st i0
  let st1 := { st with Ss := st.Ss.set i S }
  if mps_finiteB st = false ∧ i = 0 then
    Except.ok { st1 with Ss := st1.Ss.set st.L S }
  else Except.ok st1

/-- MPS.set_SR: store S right of site i; for infinite boundary a write at
resolved index L - 1 is mirrored to _S[0]. -/
def set_SR {K : Type} (st : MPSState K) (i0 : ℤ) (S : Spectrum K) :
    Except Err (MPSState K) := do
  let i ← toValidIndex st i0
  let st1 := { st with Ss := st.Ss.set (i + 1) S }
  if mps_finiteB st = false ∧ i = st.L - 1 then
    Except.ok { st1 with Ss := st1.Ss.set 0 S }
  else Except.ok st1

/-- Array.replace_label of npc: rename one leg. -/
def NpcArr.replaceLabel {K : Type} (B : NpcArr K) (old new : String) : NpcArr K :=
  { labels := B.labels.map (fun l => if l = old then new else l),
    dim := fun l => if l = new then B.dim old else B.dim l,
    entry := fun idx => B.entry (fun l => if l = old then idx new else idx l) }

/-- Array.scale_axis of npc: multiply the entries along one labelled leg by
a vector. -/
def scaleAxisVec {K : Type} [CommRing K] (B : NpcArr K) (v : ℕ → K)
    (axis : String) : NpcArr K :=
  { labels := B.labels,
    dim := B.dim,
    entry := fun idx => B.entry idx * v (idx axis) }

/-- Elementwise power S**form_diff of a 1-D spectrum; the source skips the
power when the exponent is exactly 1. -/
def vec_pow {K : Type} (ext : ExtOps K) (v : ℕ → K) (d : ℚ) : ℕ → K :=
  if d = 1 then v else fun k => ext.rpow (v k) d

/-- npc.tensordot(S, B, axes=[1, axis]) followed by replace_label(0, axis):
contract a matrix spectrum into the named leg from the left. -/
def contract_mat_left {K : Type} [CommRing K] (M : Mat2 K) (B : NpcArr K)
    (axis : String) : NpcArr K :=
  { labels := B.labels,
    dim := fun l => if l = axis then M.d0 else B.dim l,
    entry := fun idx => ∑ k ∈ Finset.range M.d1,
      M.val (idx axis) k * B.entry (fun l => if l = axis then k else idx l) }

/-- npc.tensordot(B, S, axes=[axis, 0]) followed by replace_label(-1, axis):
contract a matrix spectrum into the named leg from the right. -/
def contract_mat_right {K : Type} [CommRing K] (M : Mat2 K) (B : NpcArr K)
    (axis : String) : NpcArr K :=
  { labels := B.labels,
    dim := fun l => if l = axis then M.d1 else B.dim l,
    entry := fun idx => ∑ k ∈ Finset.range M.d0,
      B.entry (fun l => if l = axis then k else idx l) * M.val k (idx axis) }

/-- MPS._scale_axis_B: scale an axis of B with the spectrum S raised to the
exponent form_diff. Exponent 0 is a no-op; a 1-D spectrum is rescaled
elementwise; a 2-D spectrum supports only the exponents +1 (contract S) and
-1 (contract the pseudo-inverse of S with the given cutoff). -/
def scale_axis_B {K : Type} [CommRing K] (ext : ExtOps K) (B : NpcArr K)
    (S : Spectrum K) (form_diff : ℚ) (axis_B : String) (cutoff : ℚ) :
    Except Err (NpcArr K) :=
  if form_diff = 0 then Except.ok B
  else
    match S with
    | .mat M =>
      (if form_diff = -1 then Except.ok (ext.pinv M cutoff)
       else if form_diff ≠ 1 then
         Except.error (Err.valueError ("Cannot scale/tensordot a 2D S for non-integer form_diff"))
       else Except.ok M).bind (fun M2 =>
        if axis_B = "vL" ∨ axis_B = "vL*" then
          Except.ok (contract_mat_left M2 B axis_B)
        else if axis_B = "vR" ∨ axis_B = "vR*" then
          Except.ok (contract_mat_right M2 B axis_B)
        else
          Except.error (Err.valueError ("This should never happen: unexpected leg for scaling with S")))
    | .vec _ v => Except.ok (scaleAxisVec B (vec_pow ext v form_diff) axis_B)

/-- MPS._convert_form_i: transform the tensor at site i from canonical form
form into new_form by rescaling the vL and vR legs with the neighbouring
spectra raised to the exponent differences. -/
def convert_form_i {K : Type} [CommRing K] (ext : ExtOps K) (st : MPSState K)
    (B : NpcArr K) (i : ℕ) (form new_form : Option (ℚ × ℚ)) (copy : Bool)
    (cutoff : ℚ) : Except Err (NpcArr K) :=
  if new_form = none ∨ form = new_form then
    -- copy only affects Python object identity, not the value
    Except.ok B
  else
    match form with
    | none => Except.error (Err.valueError ("cannot convert form of non-canonical state"))
    | some (oldL, oldR) =>
      match new_form with
      | none => Except.ok B  -- unreachable: caught by the first branch
      | some (newL, newR) =>
        (scale_axis_B ext B (get_SL st i) (newL - oldL) "vL" cutoff).bind
          (fun B1 => scale_axis_B ext B1 (get_SR st i) (newR - oldR) "vR" cutoff)

/-- MPS.get_B with an already parsed form: resolve the index, then convert
the stored tensor from its current form tag into the requested form. -/
def get_B_parsed {K : Type} [CommRing K] (ext : ExtOps K) (st : MPSState K)
    (i0 : ℤ) (f : Option (ℚ × ℚ)) (copy : Bool) (cutoff : ℚ) :
    Except Err (NpcArr K) := do
  let i ← toValidIndex st i0
  convert_form_i ext st (st.Bs.getD i (dummyArr K)) i (st.form.getD i none) f copy cutoff

/-- MPS.get_B: parse the form argument, then convert. -/
def get_B {K : Type} [CommRing K] (ext : ExtOps K) (st : MPSState K)
    (i0 : ℤ) (f : FormArg) (copy : Bool) (cutoff : ℚ) :
    Except Err (NpcArr K) :=
  get_B_parsed ext st i0 (toValidForm f) copy cutoff

/-- MPS.set_B with an already parsed form tag: store the tensor and its form
tag at the resolved index. -/
def set_B_parsed {K : Type} (st : MPSState K) (i0 : ℤ) (B : NpcArr K)
    (f : Option (ℚ × ℚ)) : Except Err (MPSState K) := do
  let i ← toValidIndex st i0
  Except.ok { st with form := st.form.set i f, Bs := st.Bs.set i B }

/-- npc.tensordot(theta, B, axes=(vR, vL)): contract the accumulated theta
with the next site tensor along the shared virtual bond. -/
def tensordot_vRvL {K : Type} [CommRing K] (A B : NpcArr K) : NpcArr K :=
  { labels := (A.labels.erase ("vR")) ++ (B.labels.erase ("vL")),
    dim := fun l =>
      if l = "vR" then B.dim ("vR")
      else if l = "vL" then A.dim ("vL")
      else if (A.labels.erase ("vR")).contains l then A.dim l else B.dim l,
    entry := fun idx => ∑ k ∈ Finset.range (A.dim ("vR")),
      A.entry (fun l => if l = "vR" then k else idx l) *
      B.entry (fun l => if l = "vL" then k else idx l) }

/-- One iteration of the get_theta loop over the sites i+1 .. i+n-1: fetch
the stored tensor, relabel its physical leg, correct its vL leg so the
contracted bond carries the spectrum exactly once (skipped after a site of
unknown form), contract, and update the running right exponent. -/
def theta_step {K : Type} [CommRing K] (ext : ExtOps K) (st : MPSState K)
    (cutoff : ℚ) (i : ℕ) (acc : NpcArr K × Option ℚ) (k : ℕ) :
    Except Err (NpcArr K × Option ℚ) := do
  -- j = (i + k) % L is the resolved index of the k-th site of the window
  let B0 ← get_B_parsed ext st (((i + k) % st.L : ℕ) : ℤ) none false default_cutoff
  let B1 := B0.replaceLabel ("p") ("p" ++ toString k)
  match st.form.getD ((i + k) % st.L) none with
  | some (fLj, fRj) =>
    match acc.2 with
    | some fRv => do
      let B2 ← scale_axis_B ext B1 (get_SL st ((i + k) % st.L)) (1 - fLj - fRv) "vL" cutoff
      Except.ok (tensordot_vRvL acc.1 B2, some fRj)
    | none => Except.ok (tensordot_vRvL acc.1 B1, some fRj)
  | none => Except.ok (tensordot_vRvL acc.1 B1, none)

/-- MPS.get_theta: the n-site wave function on sites i .. i+n-1 with the
given boundary exponents. The window must not start or end on a site of
unknown form; intermediate unknown sites are contracted verbatim. The final
rescaling with the running right exponent set to None models the Python
TypeError raised by the arithmetic formR - None (unreachable thanks to the
guard on the last site). -/
def get_theta {K : Type} [CommRing K] (ext : ExtOps K) (st : MPSState K)
    (i0 : ℤ) (n : ℕ) (cutoff : ℚ) (formL formR : ℚ) :
    Except Err (NpcArr K) := do
  let i ← toValidIndex st i0
  if mps_finiteB st = true ∧ i + n > st.L then
    Except.error (Err.valueError ("i out of bounds"))
  else
    match st.form.getD i none, st.form.getD ((i + n - 1) % st.L) none with
    | none, _ =>
      Except.error (Err.valueError ("cannot calculate theta for non-canonical form"))
    | some _, none =>
      Except.error (Err.valueError ("cannot calculate theta for non-canonical form"))
    | some (fL, fR), some _ => do
      let copy := decide (fL = 0 ∧ fR = 0)
      let th0 ← get_B_parsed ext st (i : ℤ) none copy default_cutoff
      let th1 := th0.replaceLabel ("p") ("p0")
      let th2 ← scale_axis_B ext th1 (get_SL st i) (formL - fL) "vL" cutoff
      let res ← (List.range' 1 (n - 1)).foldlM (theta_step ext st cutoff i) (th2, some fR)
      match res.2 with
      | none => Except.error (Err.typeError ("unsupported operand type: float and NoneType"))
      | some fR2 => do
        let jl ← toValidIndex st ((i : ℤ) + n - 1)
        scale_axis_B ext res.1 (get_SR st jl) (formR - fR2) "vR" cutoff

/-- Label check of MPS.test_sanity: set([vL, vR, p]) <= set(B.get_leg_labels()),
i.e. the three required legs must be present (a containment, not an
equality). -/
def labels_ok {K : Type} (B : NpcArr K) : Bool :=
  ["vL", "vR", "p"].all (fun l => B.labels.contains l)

/-- Trailing dimension S.shape[-1] of a spectrum. -/
def spec_shape_last {K : Type} : Spectrum K → ℕ
  | .vec n _ => n
  | .mat M => M.d1

/-- Leading dimension S.shape[0] of a spectrum. -/
def spec_shape_first {K : Type} : Spectrum K → ℕ
  | .vec n _ => n
  | .mat M => M.d0

/-- Python len(S) of a spectrum (first dimension). -/
def spec_py_len {K : Type} : Spectrum K → ℕ
  | .vec n _ => n
  | .mat M => M.d0

/-- Elementwise numpy equality of two spectra, as used by the infinite
boundary check np.any(S[L] != S[0]) of test_sanity. -/
def specBEq {K : Type} [DecidableEq K] : Spectrum K → Spectrum K → Bool
  | .vec n f, .vec m g =>
    decide (n = m) && (List.range n).all (fun v => decide (f v = g v))
  | .mat M, .mat N =>
    decide (M.d0 = N.d0) && decide (M.d1 = N.d1) &&
      (List.range M.d0).all (fun a => (List.range M.d1).all (fun b => decide (M.val a b = N.val a b)))
  | _, _ => false

/-- Per-site body of the test_sanity loop: the label containment check, the
recursive npc sanity check, the compatibility of the neighbouring spectrum
shapes with the virtual legs, and the leg contractibility with the next
tensor (skipped at the last bond of a finite or segment MPS). -/
def sanity_site_check {K : Type} [CommRing K] (ext : ExtOps K)
    (st : MPSState K) (i : ℕ) : Except Err Unit := do
  if labels_ok (st.Bs.getD i (dummyArr K)) = false then
    Except.error (Err.valueError ("B has wrong labels"))
  else do
    ext.arr_test_sanity (st.Bs.getD i (dummyArr K))
    if spec_shape_last (st.Ss.getD i (onesSpec K)) ≠ (st.Bs.getD i (dummyArr K)).dim ("vL") ∨
        spec_shape_first (st.Ss.getD (i + 1) (onesSpec K)) ≠ (st.Bs.getD i (dummyArr K)).dim ("vR") then
      Except.error (Err.valueError ("shape of B incompatible with len of singular values"))
    else
      if mps_finiteB st = false ∨ i + 1 < st.L then
        ext.test_contractible (st.Bs.getD i (dummyArr K))
          (st.Bs.getD ((i + 1) % st.L) (dummyArr K))
      else Except.ok ()

/-- Iteration of the test_sanity site loop over the listed indices. -/
def sanity_loop {K : Type} [CommRing K] (ext : ExtOps K) (st : MPSState K) :
    List ℕ → Except Err Unit
  | [] => Except.ok ()
  | i :: rest => (sanity_site_check ext st i).bind
      (fun _ => sanity_loop ext st rest)

/-- MPS.test_sanity: raise if the state violates the invariants (boundary
condition validity holds by construction of BCond; non-None form tags being
2-tuples holds by construction of the Option pair representation). -/
def test_sanity {K : Type} [CommRing K] [DecidableEq K] (ext : ExtOps K)
    (st : MPSState K) : Except Err Unit := do
  if st.Bs.length ≠ st.L then
    Except.error (Err.valueError ("wrong len of B list"))
  else if st.Ss.length ≠ st.L + 1 then
    Except.error (Err.valueError ("wrong len of S list"))
  else do
    sanity_loop ext st (List.range st.Bs.length)
    if st.bc = .finite ∧
        (spec_py_len (st.Ss.getD 0 (onesSpec K)) ≠ 1 ∨
         spec_py_len (st.Ss.getD st.L (onesSpec K)) ≠ 1) then
      Except.error (Err.valueError ("non-trivial outer bonds for finite MPS"))
    else if st.bc = .infinite ∧
        specBEq (st.Ss.getD st.L (onesSpec K)) (st.Ss.getD 0 (onesSpec K)) = false then
      Except.error (Err.valueError ("iMPS with S of bond 0 different from bond L"))
    else if st.form.length ≠ st.L then
      Except.error Err.assertionError
    else Except.ok ()

/-- Membership in the nontrivial_bonds slice: slice(1, L) for finite,
slice(0, L+1) for segment, slice(0, L) for infinite. -/
def in_nontrivial_bonds (bc : BCond) (L i : ℕ) : Bool :=
  match bc with
  | .finite => decide (1 ≤ i ∧ i < L)
  | .segment => decide (i < L + 1)
  | .infinite => decide (i < L)

/-- Construction of the _S list in MPS.__init__: start from L+1 None
entries, copy the supplied singular values on the nontrivial bonds, then
identify _S[L] with _S[0] for infinite boundary or overwrite both outer
bonds with np.ones([1]) for finite boundary. -/
def init_S_opt {K : Type} [CommRing K] (bc : BCond) (L : ℕ)
    (SVs : List (Spectrum K)) : List (Option (Spectrum K)) :=
  let base := (List.range (L + 1)).map
    (fun i => if in_nontrivial_bonds bc L i then some (SVs.getD i (onesSpec K)) else none)
  match bc with
  | .infinite => base.set L (base.getD 0 none)
  | .finite => (base.set 0 (some (onesSpec K))).set L (some (onesSpec K))
  | .segment => base

/-- Totalize a list of optional spectra; a remaining None entry would
surface in Python as an attribute error on a later access. -/
def lift_options {K : Type} : List (Option (Spectrum K)) → Except Err (List (Spectrum K))
  | [] => Except.ok []
  | none :: _ => Except.error (Err.typeError ("NoneType has no attribute shape"))
  | some a :: rest => (lift_options rest).map (fun l => a :: l)

/-- Record assembled by MPS.__init__ from its arguments. -/
def mps_from_parts {K : Type} (sites : List ℕ) (Bs : List (NpcArr K))
    (Ss : List (Spectrum K)) (bc : BCond) (f : FormArg) : MPSState K :=
  { sites := sites, Bs := Bs, Ss := Ss, bc := bc,
    form := parse_form sites.length f }

/-- MPS.__init__: copy the tensors (value-identical here), build the _S list,
parse the form argument, and run test_sanity before the instance is usable.
The access sites[0].leg of the source makes an empty site list an
IndexError. -/
def mps_init {K : Type} [CommRing K] [DecidableEq K] (ext : ExtOps K)
    (sites : List ℕ) (Bs : List (NpcArr K)) (SVs : List (Spectrum K))
    (bc : BCond) (f : FormArg) : Except Err (MPSState K) := do
  if sites.length = 0 then Except.error Err.indexError
  else do
    let Ss ← lift_options (init_S_opt bc sites.length SVs)
    test_sanity ext (mps_from_parts sites Bs Ss bc f)
    Except.ok (mps_from_parts sites Bs Ss bc f)

/-- One step of MPS.convert_form: compute the tensor of site i in the new
form and store it together with the new form tag. -/
def convert_step {K : Type} [CommRing K] (ext : ExtOps K)
    (nfs : List (Option (ℚ × ℚ))) (st : MPSState K) (i : ℕ) :
    Except Err (MPSState K) := do
  let newB ← get_B_parsed ext st (i : ℤ) (nfs.getD i none) false default_cutoff
  set_B_parsed st (i : ℤ) newB (nfs.getD i none)

/-- MPS.convert_form: in-place global gauge change, site by site. -/
def convert_form {K : Type} [CommRing K] (ext : ExtOps K) (st : MPSState K)
    (new_form : FormArg) : Except Err (MPSState K) :=
  (List.range st.L).foldlM (convert_step ext (parse_form st.L new_form)) st

/-- Check of MPS.from_full that the requested form is one of the four
canonical names (the Python membership test form in [B, A, C, G]). -/
def is_canonical_name : FormArg → Bool
  | .A => true
  | .B => true
  | .C => true
  | .G => true
  | _ => false

/-- MPS.from_full. The sequence of SVDs that compresses the dense wave
function into B-form tensors and singular values uses only the external
npc capability (svd, combine_legs, split_legs); it is abstracted into the
svd_sweep argument. The guards, the finite boundary, the B-form
construction and the final conversion are the code under verification. -/
def from_full {K : Type} [CommRing K] [DecidableEq K] (ext : ExtOps K)
    (sites : List ℕ)
    (svd_sweep : Except Err (List (NpcArr K) × List (Spectrum K)))
    (f : FormArg) : Except Err (MPSState K) :=
  if is_canonical_name f = false then
    Except.error (Err.valueError ("Invalid form"))
  else if sites.length < 2 then Except.error Err.assertionError
  else do
    let BS ← svd_sweep
    let res ← mps_init ext sites BS.1 BS.2 BCond.finite FormArg.B
    if f ≠ FormArg.B then convert_form ext res f
    else Except.ok res

/-- Python len applied to a plain integer: a TypeError. Models the
expression len(n) of the diagnostic in MPS.expectation_value. -/
def py_len_of_int (n : ℕ) : Except Err ℕ :=
  Except.error (Err.typeError ("object of type int has no len"))

/-- Axes handling of MPS.expectation_value: defaulting of the axes argument
and the count check; on a mismatch the source formats its ValueError with
len(n) on the plain count n, which itself fails as a TypeError. -/
def expectation_value_check_axes (n : ℕ)
    (axes : Option (List String × List String)) :
    Except Err (List String × List String) :=
  let th_labels := ["vL", "vR"] ++ (List.range n).map (fun j => "p" ++ toString j)
  let axes_p := match axes with
    | none => th_labels.drop 2
    | some a => a.1
  let axes_pstar := match axes with
    | none => (th_labels.drop 2).map (fun l => l ++ "*")
    | some a => a.2
  if axes_p.length ≠ n ∨ axes_pstar.length ≠ n then
    match py_len_of_int n with
    | .error e => Except.error e
    | .ok m => Except.error (Err.valueError ("Len of axes does not match operator n=" ++ toString m))
  else Except.ok (axes_p, axes_pstar)

/-- PowLaws captures, in exact arithmetic, the power laws satisfied by a
nonzero (positive) singular value under the elementwise real power: they
are exactly what the round-trip of form conversion relies on. -/
structure PowLaws {K : Type} [CommRing K] (rpow : K → ℚ → K) (s : K) : Prop where
  pow_one : rpow s 1 = s
  pow_zero : rpow s 0 = 1
  pow_add : ∀ a b : ℚ, rpow s a * rpow s b = rpow s (a + b)

/-- Concrete power operation for witnesses: trivial on the all-ones spectra
used there, with the exponent-one shortcut of the source respected. -/
def rpowTriv : ℚ → ℚ → ℚ := fun s e => if e = 1 then s else 1

/-- Concrete external capability record over the rationals used by the
witness instances. -/
def extQ : ExtOps ℚ :=
  { rpow := rpowTriv,
    pinv := fun M _ => M,
    arr_test_sanity := fun _ => Except.ok (),
    test_contractible := fun _ _ => Except.ok () }

/-- Concrete tensor with exactly the legs vL, vR, p, all of dimension 1. -/
def arr1 : NpcArr ℚ :=
  { labels := ["vL", "vR", "p"], dim := fun _ => 1, entry := fun _ => 1 }

/-- Concrete tensor carrying an additional leg besides vL, vR, p. -/
def arrX : NpcArr ℚ :=
  { labels := ["vL", "vR", "p", "extra"], dim := fun _ => 1, entry := fun _ => 1 }

/-- Concrete 1 x 1 matrix-valued spectrum. -/
def matQ : Mat2 ℚ := { d0 := 1, d1 := 1, val := fun _ _ => 1 }

/-- Concrete two-site finite MPS state in B form with trivial bonds. -/
def stFin : MPSState ℚ :=
  { sites := [2, 2],
    Bs := [arr1, arr1],
    Ss := [onesSpec ℚ, onesSpec ℚ, onesSpec ℚ],
    bc := .finite,
    form := [some (0, 1), some (0, 1)] }

/-- Concrete one-site infinite MPS state in B form. -/
def stInf : MPSState ℚ :=
  { sites := [2],
    Bs := [arr1],
    Ss := [onesSpec ℚ, onesSpec ℚ],
    bc := .infinite,
    form := [some (0, 1)] }

/-- Concrete one-site finite MPS state whose tensor carries an extra leg
while every other invariant holds. -/
def stX : MPSState ℚ :=
  { sites := [2],
    Bs := [arrX],
    Ss := [onesSpec ℚ, onesSpec ℚ],
    bc := .finite,
    form := [some (0, 1)] }

/-! Helper lemmas. -/

theorem NpcArr.ext_eq {K : Type} {A B : NpcArr K} (h1 : A.labels = B.labels)
    (h2 : A.dim = B.dim) (h3 : A.entry = B.entry) : A = B := by
  cases A; cases B; simp_all

theorem getD_set_self {α : Type} (l : List α) (i : ℕ) (a d : α)
    (h : i < l.length) : (l.set i a).getD i d = a := by
  induction l generalizing i with
  | nil => simp at h
  | cons x xs ih =>
    cases i with
    | zero => simp [List.set, List.getD]
    | succ j =>
      simp only [List.set, List.getD_cons_succ]
      exact ih j (by simpa using h)

theorem getD_set_ne {α : Type} (l : List α) (i j : ℕ) (a d : α)
    (h : j ≠ i) : (l.set i a).getD j d = l.getD j d := by
  induction l generalizing i j with
  | nil => simp [List.set]
  | cons x xs ih =>
    cases i with
    | zero =>
      cases j with
      | zero => exact absurd rfl h
      | succ j2 => simp [List.set]
    | succ i2 =>
      cases j with
      | zero => simp [List.set]
      | succ j2 =>
        simp only [List.set, List.getD_cons_succ]
        exact ih i2 j2 (fun hc => h (by rw [hc]))

theorem toValidIndex_coe {K : Type} (st : MPSState K) {i : ℕ}
    (hi : i < st.L) : toValidIndex st (i : ℤ) = Except.ok i := by
  unfold toValidIndex
  by_cases hb : mps_finiteB st = false
  · rw [if_pos hb, if_neg (by omega : ¬ st.L = 0)]
    congr 1
    rw [Int.emod_eq_of_lt (by exact_mod_cast Nat.zero_le i) (by exact_mod_cast hi)]
    omega
  · rw [if_neg hb]
    have hw : pyWrapNeg st.L (i : ℤ) = (i : ℤ) := by
      unfold pyWrapNeg
      rw [if_neg (by exact_mod_cast Int.not_lt.mpr (Int.natCast_nonneg i))]
    rw [hw, if_neg (by push_neg; constructor <;> [exact_mod_cast hi; exact_mod_cast Int.natCast_nonneg i])]
    simp

theorem toValidIndex_lt {K : Type} {st : MPSState K} {i0 : ℤ} {i : ℕ}
    (h : toValidIndex st i0 = Except.ok i) : i < st.L := by
  unfold toValidIndex at h
  split at h
  · split at h
    · simp at h
    · rename_i hL
      injection h with h
      subst h
      have hpos : (0 : ℤ) < (st.L : ℤ) := by exact_mod_cast Nat.pos_of_ne_zero hL
      have h1 := Int.emod_nonneg i0 (by omega : (st.L : ℤ) ≠ 0)
      have h2 := Int.emod_lt_of_pos i0 hpos
      omega
  · split at h
    · simp at h
    · rename_i hcond
      injection h with h
      subst h
      push_neg at hcond
      omega

theorem scale_axis_B_vecD {K : Type} [CommRing K] (ext : ExtOps K)
    (B : NpcArr K) (n : ℕ) (v : ℕ → K) (d : ℚ) (ax : String) (c : ℚ)
    (hd : d ≠ 0) :
    scale_axis_B ext B (Spectrum.vec n v) d ax c =
      Except.ok (scaleAxisVec B (vec_pow ext v d) ax) := by
  simp [scale_axis_B, hd]

theorem vec_pow_apply {K : Type} (ext : ExtOps K) (v : ℕ → K) (d : ℚ) (k : ℕ) :
    vec_pow ext v d k = if d = 1 then v k else ext.rpow (v k) d := by
  unfold vec_pow
  split <;> simp_all

theorem pow_point_mul_neg {K : Type} [CommRing K] {ext : ExtOps K} {s : K}
    (hlaw : PowLaws ext.rpow s) (d : ℚ) :
    (if d = 1 then s else ext.rpow s d) * (if -d = 1 then s else ext.rpow s (-d)) = 1 := by
  rcases eq_or_ne d 1 with h1 | h1
  · subst h1
    rw [if_pos rfl, if_neg (by norm_num)]
    calc s * ext.rpow s (-1) = ext.rpow s 1 * ext.rpow s (-1) := by rw [hlaw.pow_one]
      _ = ext.rpow s (1 + -1) := hlaw.pow_add 1 (-1)
      _ = 1 := by norm_num [hlaw.pow_zero]
  · rcases eq_or_ne d (-1) with h2 | h2
    · subst h2
      rw [if_neg h1, if_pos (by norm_num)]
      calc ext.rpow s (-1) * s = ext.rpow s (-1) * ext.rpow s 1 := by rw [hlaw.pow_one]
        _ = ext.rpow s (-1 + 1) := hlaw.pow_add (-1) 1
        _ = 1 := by norm_num [hlaw.pow_zero]
    · rw [if_neg h1, if_neg (by intro h; exact h2 (by linarith))]
      rw [hlaw.pow_add d (-d)]
      norm_num [hlaw.pow_zero]

theorem vec_pow_mul_neg {K : Type} [CommRing K] {ext : ExtOps K} {v : ℕ → K}
    (k : ℕ) (hlaw : PowLaws ext.rpow (v k)) (d : ℚ) :
    vec_pow ext v d k * vec_pow ext v (-d) k = 1 := by
  rw [vec_pow_apply, vec_pow_apply]
  exact pow_point_mul_neg hlaw d

theorem scaleAxisVec_comm {K : Type} [CommRing K] (B : NpcArr K)
    (v1 v2 : ℕ → K) (a1 a2 : String) :
    scaleAxisVec (scaleAxisVec B v1 a1) v2 a2 =
      scaleAxisVec (scaleAxisVec B v2 a2) v1 a1 := by
  refine NpcArr.ext_eq rfl rfl ?_
  funext idx
  show B.entry idx * v1 (idx a1) * v2 (idx a2) = B.entry idx * v2 (idx a2) * v1 (idx a1)
  ring

theorem scaleAxisVec_cancel {K : Type} [CommRing K] {ext : ExtOps K}
    (B : NpcArr K) (v : ℕ → K) (d : ℚ) (ax : String)
    (hlaw : ∀ k, PowLaws ext.rpow (v k)) :
    scaleAxisVec (scaleAxisVec B (vec_pow ext v d) ax) (vec_pow ext v (-d)) ax = B := by
  refine NpcArr.ext_eq rfl rfl ?_
  funext idx
  show B.entry idx * vec_pow ext v d (idx ax) * vec_pow ext v (-d) (idx ax) = B.entry idx
  rw [mul_assoc, vec_pow_mul_neg (idx ax) (hlaw (idx ax)) d, mul_one]

theorem scale_axis_B_vec_law {K : Type} [CommRing K] (ext : ExtOps K)
    (B : NpcArr K) (n : ℕ) (v : ℕ → K) (d : ℚ) (ax : String) (c : ℚ)
    (hlaw : ∀ k, PowLaws ext.rpow (v k)) :
    scale_axis_B ext B (Spectrum.vec n v) d ax c =
      Except.ok (scaleAxisVec B (vec_pow ext v d) ax) := by
  rcases eq_or_ne d 0 with h0 | h0
  · subst h0
    have : scaleAxisVec B (vec_pow ext v 0) ax = B := by
      refine NpcArr.ext_eq rfl rfl ?_
      funext idx
      show B.entry idx * vec_pow ext v 0 (idx ax) = B.entry idx
      rw [vec_pow_apply, if_neg (by norm_num), (hlaw (idx ax)).pow_zero, mul_one]
    rw [this]
    simp [scale_axis_B]
  · exact scale_axis_B_vecD ext B n v d ax c h0

/-- C7: the leg-rescale primitive _scale_axis_B called with exponent 0
returns the input tensor B itself, unchanged, for every tensor, every
spectrum (vector- or matrix-valued), every leg and every cutoff, and
raises no error. -/
theorem claim_C7_zero_exponent_identity {K : Type} [CommRing K]
    (ext : ExtOps K) (B : NpcArr K) (S : Spectrum K) (axis : String)
    (cutoff : ℚ) :
    scale_axis_B ext B S 0 axis cutoff = Except.ok B := by
  simp [scale_axis_B]

/-- C6 counterexample: the claim says every exponent outside the set of
+1 and -1 raises on a matrix-valued spectrum, but the exponent 0 (which is
outside that set) returns the input unchanged without any error, because
the zero-exponent shortcut of _scale_axis_B fires before the matrix
branch. -/
theorem claim_C6_cex :
    scale_axis_B extQ arr1 (Spectrum.mat matQ) 0 ("vL") 0 = Except.ok arr1 ∧
    (0 : ℚ) ≠ 1 ∧ (0 : ℚ) ≠ -1 := by
  refine ⟨by simp [scale_axis_B], by norm_num, by norm_num⟩

/-- C6 (amended): on a matrix-valued (2-D) spectrum, _scale_axis_B raises
the unsupported-exponent error for every exponent outside 0, +1 and -1;
exponent 0 is the global no-op, exponent +1 contracts S into the named leg,
and exponent -1 contracts the pseudo-inverse of S (regularized with the
given cutoff) into the leg. -/
theorem claim_C6_matrix_exponents {K : Type} [CommRing K] (ext : ExtOps K)
    (B : NpcArr K) (M : Mat2 K) (d : ℚ) (axis : String) (cutoff : ℚ) :
    (d ≠ 0 → d ≠ 1 → d ≠ -1 →
      scale_axis_B ext B (Spectrum.mat M) d axis cutoff =
        Except.error (Err.valueError ("Cannot scale/tensordot a 2D S for non-integer form_diff"))) ∧
    scale_axis_B ext B (Spectrum.mat M) 0 axis cutoff = Except.ok B ∧
    scale_axis_B ext B (Spectrum.mat M) 1 ("vL") cutoff =
      Except.ok (contract_mat_left M B ("vL")) ∧
    scale_axis_B ext B (Spectrum.mat M) (-1) "vL" cutoff =
      Except.ok (contract_mat_left (ext.pinv M cutoff) B ("vL")) ∧
    scale_axis_B ext B (Spectrum.mat M) 1 ("vR") cutoff =
      Except.ok (contract_mat_right M B ("vR")) ∧
    scale_axis_B ext B (Spectrum.mat M) (-1) "vR" cutoff =
      Except.ok (contract_mat_right (ext.pinv M cutoff) B ("vR")) := by
  refine ⟨?_, ?_, ?_, ?_, ?_, ?_⟩
  · intro h0 h1 hm1
    simp [scale_axis_B, h0, h1, hm1, Except.bind]
  · simp [scale_axis_B]
  · simp [scale_axis_B, Except.bind, (by norm_num : (1 : ℚ) ≠ -1)]
  · simp [scale_axis_B, Except.bind]
  · simp [scale_axis_B, Except.bind, (by norm_num : (1 : ℚ) ≠ -1),
      (by decide : ¬("vR" = "vL" ∨ "vR" = "vL*"))]
  · simp [scale_axis_B, Except.bind,
      (by decide : ¬("vR" = "vL" ∨ "vR" = "vL*"))]

/-- C6 witness: the amended error clause at the concrete exponent 1/2 on a
concrete 1 x 1 matrix spectrum. -/
theorem claim_C6_matrix_exponents_witness :
    scale_axis_B extQ arr1 (Spectrum.mat matQ) (1 / 2) "vL" 0 =
      Except.error (Err.valueError ("Cannot scale/tensordot a 2D S for non-integer form_diff")) :=
  (claim_C6_matrix_exponents extQ arr1 matQ (1 / 2) "vL" 0).1
    (by norm_num) (by norm_num) (by norm_num)

theorem convert_form_i_vec {K : Type} [CommRing K] (ext : ExtOps K)
    (st : MPSState K) (B : NpcArr K) (i : ℕ) (xL xR yL yR : ℚ) (c : Bool)
    (cutoff : ℚ) (hne : ¬ ((xL, xR) = (yL, yR)))
    (nL nR : ℕ) (sL sR : ℕ → K)
    (hSL : get_SL st i = Spectrum.vec nL sL)
    (hSR : get_SR st i = Spectrum.vec nR sR)
    (hlawL : ∀ k, PowLaws ext.rpow (sL k))
    (hlawR : ∀ k, PowLaws ext.rpow (sR k)) :
    convert_form_i ext st B i (some (xL, xR)) (some (yL, yR)) c cutoff =
      Except.ok (scaleAxisVec (scaleAxisVec B (vec_pow ext sL (yL - xL)) "vL")
        (vec_pow ext sR (yR - xR)) "vR") := by
  unfold convert_form_i
  rw [if_neg (by simp [hne])]
  show (scale_axis_B ext B (get_SL st i) (yL - xL) "vL" cutoff).bind
      (fun B1 => scale_axis_B ext B1 (get_SR st i) (yR - xR) "vR" cutoff) = _
  rw [hSL, scale_axis_B_vec_law ext B nL sL (yL - xL) "vL" cutoff hlawL]
  show scale_axis_B ext _ (get_SR st i) (yR - xR) "vR" cutoff = _
  rw [hSR, scale_axis_B_vec_law ext _ nR sR (yR - xR) "vR" cutoff hlawR]

/-- C1: round trip of form conversion. For a site whose left and right
spectra are 1-D vectors whose entries satisfy the exact power laws (the
exact-arithmetic content of all entries being nonzero), converting a tensor
from form X to form Y via _convert_form_i and then back from Y to X
reproduces the original tensor exactly, for arbitrary exponent pairs X and
Y (which subsume the named forms A, B, C, G). -/
theorem claim_C1_round_trip {K : Type} [CommRing K] (ext : ExtOps K)
    (st : MPSState K) (i : ℕ) (B : NpcArr K) (X Y : ℚ × ℚ)
    (c1 c2 : Bool) (cutoff1 cutoff2 : ℚ) (nL nR : ℕ) (sL sR : ℕ → K)
    (hSL : get_SL st i = Spectrum.vec nL sL)
    (hSR : get_SR st i = Spectrum.vec nR sR)
    (hlawL : ∀ k, PowLaws ext.rpow (sL k))
    (hlawR : ∀ k, PowLaws ext.rpow (sR k)) :
    (convert_form_i ext st B i (some X) (some Y) c1 cutoff1).bind
      (fun B2 => convert_form_i ext st B2 i (some Y) (some X) c2 cutoff2) =
      Except.ok B := by
  rcases eq_or_ne X Y with hXY | hXY
  · subst hXY
    simp [convert_form_i, Except.bind]
  · obtain ⟨xL, xR⟩ := X
    obtain ⟨yL, yR⟩ := Y
    rw [convert_form_i_vec ext st B i xL xR yL yR c1 cutoff1 hXY nL nR sL sR hSL hSR hlawL hlawR]
    show convert_form_i ext st _ i (some (yL, yR)) (some (xL, xR)) c2 cutoff2 = _
    rw [convert_form_i_vec ext st _ i yL yR xL xR c2 cutoff2 (Ne.symm hXY) nL nR sL sR hSL hSR hlawL hlawR]
    have hxl : xL - yL = -(yL - xL) := by ring
    have hxr : xR - yR = -(yR - xR) := by ring
    rw [hxl, hxr]
    rw [scaleAxisVec_comm]
    rw [scaleAxisVec_cancel _ sR (yR - xR) "vR" hlawR]
    rw [scaleAxisVec_cancel _ sL (yL - xL) "vL" hlawL]

/-- PowLaws instance of the trivial witness power at the value one. -/
theorem powLaws_one : PowLaws rpowTriv 1 :=
  ⟨by simp [rpowTriv], by simp [rpowTriv], by intro a b; simp [rpowTriv]⟩

/-- C1 witness: the round trip between the B form (0, 1) and the C form
(1/2, 1/2) at site 0 of the concrete finite state. -/
theorem claim_C1_round_trip_witness :
    (convert_form_i extQ stFin arr1 0 (some (0, 1)) (some (1 / 2, 1 / 2)) false 0).bind
      (fun B2 => convert_form_i extQ stFin B2 0 (some (1 / 2, 1 / 2)) (some (0, 1)) true 0) =
      Except.ok arr1 :=
  claim_C1_round_trip extQ stFin 0 arr1 (0, 1) (1 / 2, 1 / 2) false true 0 0
    1 1 (fun _ => 1) (fun _ => 1) rfl rfl (fun _ => powLaws_one) (fun _ => powLaws_one)

theorem contract_mat_left_replaceLabel {K : Type} [CommRing K] (M : Mat2 K)
    (B : NpcArr K) (ax : String) (hax1 : ax ≠ "p") (hax2 : ax ≠ "p0") :
    contract_mat_left M (B.replaceLabel ("p") ("p0")) ax =
      (contract_mat_left M B ax).replaceLabel ("p") ("p0") := by
  refine NpcArr.ext_eq rfl ?_ ?_
  · funext l
    simp only [contract_mat_left, NpcArr.replaceLabel]
    split_ifs <;> simp_all
  · funext idx
    simp only [contract_mat_left, NpcArr.replaceLabel]
    refine Finset.sum_congr rfl ?_
    intro k _
    congr 1
    · congr 1
      show idx ax = if ax = "p" then idx ("p0") else idx ax
      rw [if_neg hax1]
    · congr 1
      funext l
      split_ifs <;> simp_all

theorem contract_mat_right_replaceLabel {K : Type} [CommRing K] (M : Mat2 K)
    (B : NpcArr K) (ax : String) (hax1 : ax ≠ "p") (hax2 : ax ≠ "p0") :
    contract_mat_right M (B.replaceLabel ("p") ("p0")) ax =
      (contract_mat_right M B ax).replaceLabel ("p") ("p0") := by
  refine NpcArr.ext_eq rfl ?_ ?_
  · funext l
    simp only [contract_mat_right, NpcArr.replaceLabel]
    split_ifs <;> simp_all
  · funext idx
    simp only [contract_mat_right, NpcArr.replaceLabel]
    refine Finset.sum_congr rfl ?_
    intro k _
    congr 1
    · congr 1
      funext l
      split_ifs <;> simp_all
    · congr 1
      show idx ax = if ax = "p" then idx ("p0") else idx ax
      rw [if_neg hax1]

theorem scaleAxisVec_replaceLabel {K : Type} [CommRing K] (B : NpcArr K)
    (v : ℕ → K) (ax : String) (hax1 : ax ≠ "p") :
    scaleAxisVec (B.replaceLabel ("p") ("p0")) v ax =
      (scaleAxisVec B v ax).replaceLabel ("p") ("p0") := by
  refine NpcArr.ext_eq rfl rfl ?_
  funext idx
  simp only [scaleAxisVec, NpcArr.replaceLabel]
  congr 1
  show v (idx ax) = v (if ax = "p" then idx ("p0") else idx ax)
  rw [if_neg hax1]

theorem scale_axis_B_mat_eval {K : Type} [CommRing K] (ext : ExtOps K)
    (B : NpcArr K) (M : Mat2 K) (d : ℚ) (ax : String) (c : ℚ)
    (hd0 : d ≠ 0) :
    scale_axis_B ext B (Spectrum.mat M) d ax c =
      (if d = -1 then Except.ok (ext.pinv M c)
       else if d ≠ 1 then
         Except.error (Err.valueError ("Cannot scale/tensordot a 2D S for non-integer form_diff"))
       else Except.ok M).bind (fun M2 =>
        if ax = "vL" ∨ ax = "vL*" then Except.ok (contract_mat_left M2 B ax)
        else if ax = "vR" ∨ ax = "vR*" then Except.ok (contract_mat_right M2 B ax)
        else Except.error (Err.valueError ("This should never happen: unexpected leg for scaling with S"))) := by
  simp [scale_axis_B, hd0]

theorem scale_axis_B_replaceLabel {K : Type} [CommRing K] (ext : ExtOps K)
    (B : NpcArr K) (S : Spectrum K) (d : ℚ) (ax : String) (c : ℚ)
    (hax1 : ax ≠ "p") (hax2 : ax ≠ "p0") :
    scale_axis_B ext (B.replaceLabel ("p") ("p0")) S d ax c =
      (scale_axis_B ext B S d ax c).map (fun A => A.replaceLabel ("p") ("p0")) := by
  rcases eq_or_ne d 0 with h0 | h0
  · subst h0
    simp [scale_axis_B, Except.map]
  · cases S with
    | vec n v =>
      rw [scale_axis_B_vecD ext _ n v d ax c h0, scale_axis_B_vecD ext B n v d ax c h0]
      simp only [Except.map]
      rw [scaleAxisVec_replaceLabel B (vec_pow ext v d) ax hax1]
    | mat M =>
      rw [scale_axis_B_mat_eval ext _ M d ax c h0, scale_axis_B_mat_eval ext B M d ax c h0]
      cases hM2 : (if d = -1 then Except.ok (ext.pinv M c)
          else if d ≠ 1 then
            Except.error (Err.valueError ("Cannot scale/tensordot a 2D S for non-integer form_diff"))
          else Except.ok M : Except Err (Mat2 K)) with
      | error e => simp [Except.bind, Except.map]
      | ok M2 =>
        simp only [Except.bind]
        by_cases hvl : ax = "vL" ∨ ax = "vL*"
        · rw [if_pos hvl, if_pos hvl]
          simp only [Except.map]
          rw [contract_mat_left_replaceLabel M2 B ax hax1 hax2]
        · rw [if_neg hvl, if_neg hvl]
          by_cases hvr : ax = "vR" ∨ ax = "vR*"
          · rw [if_pos hvr, if_pos hvr]
            simp only [Except.map]
            rw [contract_mat_right_replaceLabel M2 B ax hax1 hax2]
          · rw [if_neg hvr, if_neg hvr]
            simp [Except.map]

theorem okBind {ε α β : Type} (a : α) (f : α → Except ε β) :
    (Except.ok a : Except ε α) >>= f = f a := rfl

theorem errBind {ε α β : Type} (e : ε) (f : α → Except ε β) :
    (Except.error e : Except ε α) >>= f = Except.error e := rfl

theorem okBindE {ε α β : Type} (a : α) (f : α → Except ε β) :
    (Except.ok a : Except ε α).bind f = f a := rfl

theorem errBindE {ε α β : Type} (e : ε) (f : α → Except ε β) :
    (Except.error e : Except ε α).bind f = Except.error e := rfl

theorem scale_axis_B_zero {K : Type} [CommRing K] (ext : ExtOps K)
    (B : NpcArr K) (S : Spectrum K) (ax : String) (c : ℚ) :
    scale_axis_B ext B S 0 ax c = Except.ok B := by
  simp [scale_axis_B]

theorem get_B_parsed_none {K : Type} [CommRing K] (ext : ExtOps K)
    (st : MPSState K) {i : ℕ} (hi : i < st.L) (c : Bool) (cut : ℚ) :
    get_B_parsed ext st (i : ℤ) none c cut =
      Except.ok (st.Bs.getD i (dummyArr K)) := by
  unfold get_B_parsed
  rw [toValidIndex_coe st hi, okBind]
  unfold convert_form_i
  rw [if_pos (Or.inl rfl)]

/-- C2: with window size 1, left exponent 0 and right exponent 1, the theta
builder returns exactly the tensor that get_B delivers in B form, up to the
p versus p0 leg relabelling, for every valid site whose form tag is a known
exponent pair (the same vL and vR rescalings are applied on both paths). -/
theorem claim_C2_theta_single_site {K : Type} [CommRing K] (ext : ExtOps K)
    (st : MPSState K) (i : ℕ) (hi : i < st.L) (fL fR : ℚ)
    (hf : st.form.getD i none = some (fL, fR)) (cutoff : ℚ) :
    get_theta ext st (i : ℤ) 1 cutoff 0 1 =
      (get_B ext st (i : ℤ) FormArg.B false cutoff).map
        (fun A => A.replaceLabel ("p") ("p0")) := by
  have hL : 0 < st.L := lt_of_le_of_lt (Nat.zero_le i) hi
  have hmod : (i + 1 - 1) % st.L = i := by
    simp [Nat.mod_eq_of_lt hi]
  unfold get_theta
  rw [toValidIndex_coe st hi, okBind]
  rw [if_neg (by rintro ⟨_, hgt⟩; omega)]
  rw [hmod, hf]
  have hz : (i : ℤ) + ((1 : ℕ) : ℤ) - 1 = (i : ℤ) := by push_cast; ring
  simp only [get_B_parsed_none ext st hi, okBind, okBindE, List.range', List.foldlM,
    pure, Except.pure, hz, toValidIndex_coe st hi]
  -- right hand side
  unfold get_B get_B_parsed
  rw [toValidIndex_coe st hi, okBind, hf]
  show (scale_axis_B ext ((st.Bs.getD i (dummyArr K)).replaceLabel ("p") ("p0"))
      (get_SL st i) (0 - fL) "vL" cutoff).bind
      (fun th2 => scale_axis_B ext th2 (get_SR st i) (1 - fR) "vR" cutoff) =
    (convert_form_i ext st (st.Bs.getD i (dummyArr K)) i (some (fL, fR))
      (toValidForm FormArg.B) false cutoff).map (fun A => A.replaceLabel ("p") ("p0"))
  rcases eq_or_ne (fL, fR) ((0 : ℚ), (1 : ℚ)) with heq | hne
  · obtain ⟨h1, h2⟩ := Prod.mk.injEq .. ▸ heq
    subst h1
    subst h2
    rw [show (0 : ℚ) - 0 = 0 by norm_num, show (1 : ℚ) - 1 = 0 by norm_num]
    rw [scale_axis_B_zero, okBindE, scale_axis_B_zero]
    unfold convert_form_i
    simp [toValidForm, Except.map]
  · unfold convert_form_i
    rw [if_neg (by simp [toValidForm, hne])]
    show _ = ((scale_axis_B ext (st.Bs.getD i (dummyArr K)) (get_SL st i)
        (0 - fL) "vL" cutoff).bind
        (fun B1 => scale_axis_B ext B1 (get_SR st i) (1 - fR) "vR" cutoff)).map
        (fun A => A.replaceLabel ("p") ("p0"))
    rw [scale_axis_B_replaceLabel ext (st.Bs.getD i (dummyArr K)) (get_SL st i)
      (0 - fL) "vL" cutoff (by decide) (by decide)]
    cases hs : scale_axis_B ext (st.Bs.getD i (dummyArr K)) (get_SL st i)
        (0 - fL) "vL" cutoff with
    | error e => simp [Except.bind, Except.map]
    | ok Z =>
      show scale_axis_B ext (Z.replaceLabel ("p") ("p0")) (get_SR st i)
          (1 - fR) "vR" cutoff =
        Except.map (fun A => A.replaceLabel ("p") ("p0"))
          (scale_axis_B ext Z (get_SR st i) (1 - fR) "vR" cutoff)
      exact scale_axis_B_replaceLabel ext Z (get_SR st i) (1 - fR) "vR" cutoff
        (by decide) (by decide)

/-- C2 witness: the single-site theta window at site 0 of the concrete
finite state equals the B-form accessor up to the leg relabelling. -/
theorem claim_C2_theta_single_site_witness :
    get_theta extQ stFin (((0 : ℕ) : ℤ)) 1 0 0 1 =
      (get_B extQ stFin (((0 : ℕ) : ℤ)) FormArg.B false 0).map
        (fun A => A.replaceLabel ("p") ("p0")) :=
  claim_C2_theta_single_site extQ stFin 0 (by decide) 0 1 rfl 0

theorem scale_axis_B_vec_isOk {K : Type} [CommRing K] (ext : ExtOps K)
    (B : NpcArr K) (n : ℕ) (v : ℕ → K) (d : ℚ) (ax : String) (c : ℚ) :
    ∃ W, scale_axis_B ext B (Spectrum.vec n v) d ax c = Except.ok W := by
  rcases eq_or_ne d 0 with h | h
  · subst h
    exact ⟨B, scale_axis_B_zero ext B (Spectrum.vec n v) ax c⟩
  · exact ⟨_, scale_axis_B_vecD ext B n v d ax c h⟩

theorem theta_step_ok {K : Type} [CommRing K] (ext : ExtOps K)
    (st : MPSState K) (cutoff : ℚ) (i : ℕ)
    (hvec : ∀ j, ∃ nv f, st.Ss.getD j (onesSpec K) = Spectrum.vec nv f)
    (hL : 0 < st.L) (acc : NpcArr K × Option ℚ) (k : ℕ) :
    ∃ t, theta_step ext st cutoff i acc k =
      Except.ok (t, (st.form.getD ((i + k) % st.L) none).map Prod.snd) := by
  have hj : (i + k) % st.L < st.L := Nat.mod_lt _ hL
  unfold theta_step
  rw [get_B_parsed_none ext st hj false default_cutoff, okBind]
  cases hform : st.form.getD ((i + k) % st.L) none with
  | none => exact ⟨_, rfl⟩
  | some p =>
    obtain ⟨fLj, fRj⟩ := p
    cases hacc : acc.2 with
    | none => exact ⟨_, rfl⟩
    | some fRv =>
      obtain ⟨nv, f, hv⟩ := hvec ((i + k) % st.L)
      have hS : get_SL st ((i + k) % st.L) = Spectrum.vec nv f := hv
      rw [hS]
      obtain ⟨W, hW⟩ := scale_axis_B_vec_isOk ext
        (((st.Bs.getD ((i + k) % st.L) (dummyArr K))).replaceLabel ("p") ("p" ++ toString k))
        nv f (1 - fLj - fRv) "vL" cutoff
      exact ⟨tensordot_vRvL acc.1 W, by simp only [hW, okBind, okBindE]; rfl⟩

theorem theta_fold_ok {K : Type} [CommRing K] (ext : ExtOps K)
    (st : MPSState K) (cutoff : ℚ) (i : ℕ)
    (hvec : ∀ j, ∃ nv f, st.Ss.getD j (onesSpec K) = Spectrum.vec nv f)
    (hL : 0 < st.L) :
    ∀ (ks : List ℕ) (acc : NpcArr K × Option ℚ),
      ∃ t, ks.foldlM (theta_step ext st cutoff i) acc =
        Except.ok (t, ks.foldl
          (fun _ k => (st.form.getD ((i + k) % st.L) none).map Prod.snd) acc.2) := by
  intro ks
  induction ks with
  | nil => intro acc; exact ⟨acc.1, rfl⟩
  | cons k rest ih =>
    intro acc
    obtain ⟨t1, h1⟩ := theta_step_ok ext st cutoff i hvec hL acc k
    rw [List.foldlM_cons, h1, okBind]
    obtain ⟨t2, h2⟩ :=
      ih (t1, (st.form.getD ((i + k) % st.L) none).map Prod.snd)
    rw [h2]
    exact ⟨t2, by rw [List.foldl_cons]⟩

theorem foldl_const_last {α β : Type} (g : α → β) : ∀ (ks : List α) (a : β),
    ks.foldl (fun _ k => g k) a = (ks.getLast?).elim a g := by
  intro ks
  induction ks with
  | nil => intro a; rfl
  | cons k rest ih =>
    intro a
    rw [List.foldl_cons, ih (g k)]
    cases hr : rest with
    | nil => simp
    | cons b l =>
      subst hr
      rw [List.getLast?_cons_cons]
      cases hx : (b :: l).getLast? with
      | none => simp at hx
      | some x => rfl

theorem toValidIndex_nat_ok {K : Type} (st : MPSState K) (m : ℕ)
    (h : mps_finiteB st = true → m < st.L) (hL : 0 < st.L) :
    ∃ r, toValidIndex st (m : ℤ) = Except.ok r := by
  by_cases hb : mps_finiteB st = false
  · unfold toValidIndex
    rw [if_pos hb, if_neg (by omega)]
    exact ⟨_, rfl⟩
  · have hm := h (by revert hb; cases mps_finiteB st <;> simp)
    exact ⟨m, toValidIndex_coe st hm⟩

/-- C3: unknown-form failures. For a site with form tag None, requesting
any concrete form from get_B fails with the non-canonical error while
requesting form None returns the stored tensor; a theta window whose first
or last site has form None fails with the non-canonical-theta error; and a
window whose boundary sites have known forms succeeds (with 1-D spectra)
even when intermediate sites have unknown form. -/
theorem claim_C3_unknown_form {K : Type} [CommRing K] (ext : ExtOps K)
    (st : MPSState K) (i n : ℕ) (c : Bool) (cutoff fl fr : ℚ) (fa : FormArg)
    (hi : i < st.L) (hn : 1 ≤ n)
    (hbound : mps_finiteB st = true → i + n ≤ st.L)
    (hvec : ∀ j, ∃ nv f, st.Ss.getD j (onesSpec K) = Spectrum.vec nv f) :
    (st.form.getD i none = none → toValidForm fa ≠ none →
      get_B ext st (i : ℤ) fa c cutoff =
        Except.error (Err.valueError ("cannot convert form of non-canonical state"))) ∧
    (get_B ext st (i : ℤ) FormArg.noneF c cutoff =
      Except.ok (st.Bs.getD i (dummyArr K))) ∧
    (st.form.getD i none = none →
      get_theta ext st (i : ℤ) n cutoff fl fr =
        Except.error (Err.valueError ("cannot calculate theta for non-canonical form"))) ∧
    (st.form.getD ((i + n - 1) % st.L) none = none →
      get_theta ext st (i : ℤ) n cutoff fl fr =
        Except.error (Err.valueError ("cannot calculate theta for non-canonical form"))) ∧
    (st.form.getD i none ≠ none → st.form.getD ((i + n - 1) % st.L) none ≠ none →
      ∃ t, get_theta ext st (i : ℤ) n cutoff fl fr = Except.ok t) := by
  have hL : 0 < st.L := lt_of_le_of_lt (Nat.zero_le i) hi
  have hb : ¬ (mps_finiteB st = true ∧ i + n > st.L) := by
    rintro ⟨hf, hgt⟩
    exact absurd (hbound hf) (by omega)
  refine ⟨?_, ?_, ?_, ?_, ?_⟩
  · intro hfi hfa
    unfold get_B get_B_parsed
    rw [toValidIndex_coe st hi, okBind, hfi]
    unfold convert_form_i
    rw [if_neg (by push_neg; exact ⟨hfa, fun h => hfa h.symm⟩)]
  · exact get_B_parsed_none ext st hi c cutoff
  · intro hfi
    unfold get_theta
    rw [toValidIndex_coe st hi, okBind, if_neg hb, hfi]
  · intro hlast
    cases hfi : st.form.getD i none with
    | none =>
      unfold get_theta
      rw [toValidIndex_coe st hi, okBind, if_neg hb, hfi]
    | some p =>
      obtain ⟨fL, fR⟩ := p
      unfold get_theta
      rw [toValidIndex_coe st hi, okBind, if_neg hb, hfi, hlast]
  · intro hfi hlast
    cases hfi2 : st.form.getD i none with
    | none => exact absurd hfi2 hfi
    | some p =>
      obtain ⟨fL, fR⟩ := p
      obtain ⟨q, hq⟩ := Option.ne_none_iff_exists'.mp hlast
      unfold get_theta
      rw [toValidIndex_coe st hi, okBind, if_neg hb, hfi2, hq]
      simp only [get_B_parsed_none ext st hi, okBind, okBindE]
      obtain ⟨nvi, fi, hvi⟩ := hvec i
      have hSL : get_SL st i = Spectrum.vec nvi fi := hvi
      simp only [hSL]
      obtain ⟨W1, hW1⟩ := scale_axis_B_vec_isOk ext
        ((st.Bs.getD i (dummyArr K)).replaceLabel ("p") ("p0"))
        nvi fi (fl - fL) "vL" cutoff
      simp only [hW1, okBind, okBindE]
      obtain ⟨t, hfold⟩ := theta_fold_ok ext st cutoff i hvec hL
        (List.range' 1 (n - 1)) (W1, some fR)
      simp only [hfold, okBind, okBindE]
      have hsnd : (List.range' 1 (n - 1)).foldl
          (fun _ k => (st.form.getD ((i + k) % st.L) none).map Prod.snd)
          (some fR) = some (if n = 1 then fR else q.2) := by
        rw [foldl_const_last]
        cases hn1 : n - 1 with
        | zero =>
          have : n = 1 := by omega
          simp [this]
        | succ m =>
          have hne1 : ¬ (n = 1) := by omega
          rw [List.range'_concat, List.getLast?_concat]
          show (st.form.getD ((i + (1 + 1 * m)) % st.L) none).map Prod.snd = _
          have harg : i + (1 + 1 * m) = i + n - 1 := by omega
          rw [harg, hq]
          simp [hne1]
      rw [hsnd]
      have hcast : ((i : ℤ) + (n : ℕ) - 1) = (((i + n - 1 : ℕ) : ℕ) : ℤ) := by
        omega
      obtain ⟨r, hr⟩ := toValidIndex_nat_ok st (i + n - 1)
        (fun hf => by have := hbound hf; omega) hL
      simp only [hcast, hr, okBind, okBindE]
      obtain ⟨nv2, f2, hv2⟩ := hvec (r + 1)
      have hSR : get_SR st r = Spectrum.vec nv2 f2 := hv2
      simp only [hSR]
      exact scale_axis_B_vec_isOk ext t nv2 f2
        (fr - if n = 1 then fR else q.2) "vR" cutoff

/-- C3 witness: the unknown-form conjunction instantiated at site 0, window
size 2 of the concrete finite state. -/
theorem claim_C3_unknown_form_witness :
    (stFin.form.getD 0 none = none → toValidForm FormArg.A ≠ none →
      get_B extQ stFin ((0 : ℕ) : ℤ) FormArg.A false 0 =
        Except.error (Err.valueError ("cannot convert form of non-canonical state"))) ∧
    (get_B extQ stFin ((0 : ℕ) : ℤ) FormArg.noneF false 0 =
      Except.ok (stFin.Bs.getD 0 (dummyArr ℚ))) ∧
    (stFin.form.getD 0 none = none →
      get_theta extQ stFin ((0 : ℕ) : ℤ) 2 0 0 1 =
        Except.error (Err.valueError ("cannot calculate theta for non-canonical form"))) ∧
    (stFin.form.getD ((0 + 2 - 1) % stFin.L) none = none →
      get_theta extQ stFin ((0 : ℕ) : ℤ) 2 0 0 1 =
        Except.error (Err.valueError ("cannot calculate theta for non-canonical form"))) ∧
    (stFin.form.getD 0 none ≠ none →
      stFin.form.getD ((0 + 2 - 1) % stFin.L) none ≠ none →
      ∃ t, get_theta extQ stFin ((0 : ℕ) : ℤ) 2 0 0 1 = Except.ok t) :=
  claim_C3_unknown_form extQ stFin 0 2 false 0 0 1 FormArg.A (by decide) (by decide)
    (fun _ => by decide)
    (fun j => by
      match j with
      | 0 => exact ⟨1, fun _ => 1, rfl⟩
      | 1 => exact ⟨1, fun _ => 1, rfl⟩
      | 2 => exact ⟨1, fun _ => 1, rfl⟩
      | m + 3 => exact ⟨1, fun _ => 1, rfl⟩)

theorem finiteB_false_iff {K : Type} (st : MPSState K) :
    mps_finiteB st = false ↔ st.bc = BCond.infinite := by
  unfold mps_finiteB
  cases st.bc <;> simp

/-- C5: spectrum setters and the infinite boundary mirroring. set_SL stores
at the resolved index and, for infinite boundary with resolved index 0,
also at bond L; set_SR stores at the resolved index plus one and, for
infinite boundary with resolved index L - 1, also at bond 0. In every case
the tensors, the form tags, the sites and the boundary tag are unchanged,
and every spectra entry other than the written one (and its mirror in the
infinite special case) is unchanged. -/
theorem claim_C5_spectrum_mirroring {K : Type} [CommRing K] (st : MPSState K)
    (i0 : ℤ) (S : Spectrum K) (i : ℕ)
    (hres : toValidIndex st i0 = Except.ok i)
    (hlen : st.Ss.length = st.L + 1) :
    (∃ st1, set_SL st i0 S = Except.ok st1 ∧
      st1.Bs = st.Bs ∧ st1.form = st.form ∧ st1.sites = st.sites ∧
      st1.bc = st.bc ∧
      st1.Ss.getD i (onesSpec K) = S ∧
      (st.bc = BCond.infinite → i = 0 → st1.Ss.getD st.L (onesSpec K) = S) ∧
      ((st.bc = BCond.infinite ∧ i = 0) → ∀ j, j ≠ i → j ≠ st.L →
        st1.Ss.getD j (onesSpec K) = st.Ss.getD j (onesSpec K)) ∧
      (¬ (st.bc = BCond.infinite ∧ i = 0) → ∀ j, j ≠ i →
        st1.Ss.getD j (onesSpec K) = st.Ss.getD j (onesSpec K))) ∧
    (∃ st2, set_SR st i0 S = Except.ok st2 ∧
      st2.Bs = st.Bs ∧ st2.form = st.form ∧ st2.sites = st.sites ∧
      st2.bc = st.bc ∧
      st2.Ss.getD (i + 1) (onesSpec K) = S ∧
      (st.bc = BCond.infinite → i = st.L - 1 → st2.Ss.getD 0 (onesSpec K) = S) ∧
      ((st.bc = BCond.infinite ∧ i = st.L - 1) → ∀ j, j ≠ i + 1 → j ≠ 0 →
        st2.Ss.getD j (onesSpec K) = st.Ss.getD j (onesSpec K)) ∧
      (¬ (st.bc = BCond.infinite ∧ i = st.L - 1) → ∀ j, j ≠ i + 1 →
        st2.Ss.getD j (onesSpec K) = st.Ss.getD j (onesSpec K))) := by
  have hiL : i < st.L := toValidIndex_lt hres
  have hL : 0 < st.L := lt_of_le_of_lt (Nat.zero_le i) hiL
  constructor
  · unfold set_SL
    rw [hres, okBind]
    by_cases hc : mps_finiteB st = false ∧ i = 0
    · rw [if_pos hc]
      have hbc := (finiteB_false_iff st).mp hc.1
      refine ⟨_, rfl, rfl, rfl, rfl, rfl, ?_, ?_, ?_, ?_⟩
      · rw [getD_set_ne _ _ _ _ _ (by omega), getD_set_self _ _ _ _ (by omega)]
      · intro _ _
        rw [getD_set_self _ _ _ _ (by simp [hlen])]
      · intro _ j hj1 hj2
        rw [getD_set_ne _ _ _ _ _ hj2, getD_set_ne _ _ _ _ _ hj1]
      · intro hnc
        exact absurd ⟨hbc, hc.2⟩ hnc
    · rw [if_neg hc]
      refine ⟨_, rfl, rfl, rfl, rfl, rfl, ?_, ?_, ?_, ?_⟩
      · rw [getD_set_self _ _ _ _ (by omega)]
      · intro hbc h0
        exact absurd ⟨(finiteB_false_iff st).mpr hbc, h0⟩ hc
      · intro hcon
        exact absurd ⟨(finiteB_false_iff st).mpr hcon.1, hcon.2⟩ hc
      · intro _ j hj
        exact getD_set_ne _ _ _ _ _ hj
  · unfold set_SR
    rw [hres, okBind]
    by_cases hc : mps_finiteB st = false ∧ i = st.L - 1
    · rw [if_pos hc]
      have hbc := (finiteB_false_iff st).mp hc.1
      refine ⟨_, rfl, rfl, rfl, rfl, rfl, ?_, ?_, ?_, ?_⟩
      · rw [getD_set_ne _ _ _ _ _ (by omega), getD_set_self _ _ _ _ (by omega)]
      · intro _ _
        rw [getD_set_self _ _ _ _ (by simp [hlen])]
      · intro _ j hj1 hj2
        rw [getD_set_ne _ _ _ _ _ hj2, getD_set_ne _ _ _ _ _ hj1]
      · intro hnc
        exact absurd ⟨hbc, hc.2⟩ hnc
    · rw [if_neg hc]
      refine ⟨_, rfl, rfl, rfl, rfl, rfl, ?_, ?_, ?_, ?_⟩
      · rw [getD_set_self _ _ _ _ (by omega)]
      · intro hbc h0
        exact absurd ⟨(finiteB_false_iff st).mpr hbc, h0⟩ hc
      · intro hcon
        exact absurd ⟨(finiteB_false_iff st).mpr hcon.1, hcon.2⟩ hc
      · intro _ j hj
        exact getD_set_ne _ _ _ _ _ hj

/-- C5 witness: the setter conjunction at the concrete one-site infinite
state, resolved index 0. -/
theorem claim_C5_spectrum_mirroring_witness :
    (∃ st1, set_SL stInf 0 (Spectrum.mat matQ) = Except.ok st1 ∧
      st1.Bs = stInf.Bs ∧ st1.form = stInf.form ∧ st1.sites = stInf.sites ∧
      st1.bc = stInf.bc ∧
      st1.Ss.getD 0 (onesSpec ℚ) = Spectrum.mat matQ ∧
      (stInf.bc = BCond.infinite → 0 = 0 →
        st1.Ss.getD stInf.L (onesSpec ℚ) = Spectrum.mat matQ) ∧
      ((stInf.bc = BCond.infinite ∧ 0 = 0) → ∀ j, j ≠ 0 → j ≠ stInf.L →
        st1.Ss.getD j (onesSpec ℚ) = stInf.Ss.getD j (onesSpec ℚ)) ∧
      (¬ (stInf.bc = BCond.infinite ∧ 0 = 0) → ∀ j, j ≠ 0 →
        st1.Ss.getD j (onesSpec ℚ) = stInf.Ss.getD j (onesSpec ℚ))) ∧
    (∃ st2, set_SR stInf 0 (Spectrum.mat matQ) = Except.ok st2 ∧
      st2.Bs = stInf.Bs ∧ st2.form = stInf.form ∧ st2.sites = stInf.sites ∧
      st2.bc = stInf.bc ∧
      st2.Ss.getD (0 + 1) (onesSpec ℚ) = Spectrum.mat matQ ∧
      (stInf.bc = BCond.infinite → 0 = stInf.L - 1 →
        st2.Ss.getD 0 (onesSpec ℚ) = Spectrum.mat matQ) ∧
      ((stInf.bc = BCond.infinite ∧ 0 = stInf.L - 1) → ∀ j, j ≠ 0 + 1 → j ≠ 0 →
        st2.Ss.getD j (onesSpec ℚ) = stInf.Ss.getD j (onesSpec ℚ)) ∧
      (¬ (stInf.bc = BCond.infinite ∧ 0 = stInf.L - 1) → ∀ j, j ≠ 0 + 1 →
        st2.Ss.getD j (onesSpec ℚ) = stInf.Ss.getD j (onesSpec ℚ))) :=
  claim_C5_spectrum_mirroring stInf 0 (Spectrum.mat matQ) 0 rfl (by decide)

/-- C9: when the axes argument of expectation_value has the wrong number of
entries, the call fails, and the failure is the TypeError produced by
evaluating len(n) on the plain integer count n (the intended ValueError
diagnostic is never produced). -/
theorem claim_C9_axes_mismatch (n : ℕ) (axes_p axes_pstar : List String)
    (h : axes_p.length ≠ n ∨ axes_pstar.length ≠ n) :
    expectation_value_check_axes n (some (axes_p, axes_pstar)) =
      Except.error (Err.typeError ("object of type int has no len")) ∧
    py_len_of_int n = Except.error (Err.typeError ("object of type int has no len")) ∧
    ∀ msg, Err.typeError ("object of type int has no len") ≠ Err.valueError msg := by
  refine ⟨?_, rfl, by intro msg h2; cases h2⟩
  unfold expectation_value_check_axes
  rw [if_pos h]
  rfl

/-- C9 witness: a one-site operator with an empty first axes list. -/
theorem claim_C9_axes_mismatch_witness :
    expectation_value_check_axes 1 (some (([] : List String), ["p0*"])) =
      Except.error (Err.typeError ("object of type int has no len")) ∧
    py_len_of_int 1 = Except.error (Err.typeError ("object of type int has no len")) ∧
    ∀ msg, Err.typeError ("object of type int has no len") ≠ Err.valueError msg :=
  claim_C9_axes_mismatch 1 [] ["p0*"] (Or.inl (by decide))

theorem specBEq_refl {K : Type} [DecidableEq K] (s : Spectrum K) :
    specBEq s s = true := by
  cases s with
  | vec n f => simp [specBEq, List.all_eq_true]
  | mat M => simp [specBEq, List.all_eq_true]

/-- C10: the constructor ignores the supplied singular values on trivial
bonds. For finite boundary the outer bonds become np.ones([1]) regardless
of the supplied entries; for infinite boundary bond L is identified with
bond 0 and the supplied entry at L is never read; only entries on the
nontrivial bonds influence the built list; and the built list satisfies
the boundary-spectrum checks of test_sanity by construction. -/
theorem claim_C10_init_spectra {K : Type} [CommRing K] [DecidableEq K]
    (L : ℕ) (bc : BCond) (SVs SVs2 : List (Spectrum K)) :
    ((init_S_opt BCond.finite L SVs).getD 0 none = some (onesSpec K) ∧
     (init_S_opt BCond.finite L SVs).getD L none = some (onesSpec K)) ∧
    (init_S_opt BCond.infinite L SVs).getD L none =
      (init_S_opt BCond.infinite L SVs).getD 0 none ∧
    ((∀ j, in_nontrivial_bonds bc L j = true →
        SVs.getD j (onesSpec K) = SVs2.getD j (onesSpec K)) →
      init_S_opt bc L SVs = init_S_opt bc L SVs2) ∧
    (spec_py_len (((init_S_opt BCond.finite L SVs).getD 0 none).getD (onesSpec K)) = 1 ∧
     spec_py_len (((init_S_opt BCond.finite L SVs).getD L none).getD (onesSpec K)) = 1) ∧
    specBEq (((init_S_opt BCond.infinite L SVs).getD L none).getD (onesSpec K))
      (((init_S_opt BCond.infinite L SVs).getD 0 none).getD (onesSpec K)) = true := by
  have hlen : ∀ (l : List (Spectrum K)) (b : BCond),
      ((List.range (L + 1)).map (fun j =>
        if in_nontrivial_bonds b L j then some (l.getD j (onesSpec K)) else none)).length
        = L + 1 := by
    intro l b
    rw [List.length_map, List.length_range]
  have hfin0 : (init_S_opt BCond.finite L SVs).getD 0 none = some (onesSpec K) := by
    unfold init_S_opt
    rcases Nat.eq_zero_or_pos L with h0 | hpos
    · subst h0
      rw [getD_set_self _ _ _ _ (by rw [List.length_set, hlen]; omega)]
    · rw [getD_set_ne _ _ _ _ _ (by omega),
        getD_set_self _ _ _ _ (by rw [hlen]; omega)]
  have hfinL : (init_S_opt BCond.finite L SVs).getD L none = some (onesSpec K) := by
    unfold init_S_opt
    rw [getD_set_self _ _ _ _ (by rw [List.length_set, hlen]; omega)]
  have hinf : (init_S_opt BCond.infinite L SVs).getD L none =
      (init_S_opt BCond.infinite L SVs).getD 0 none := by
    unfold init_S_opt
    rcases Nat.eq_zero_or_pos L with h0 | hpos
    · subst h0
      rfl
    · rw [getD_set_self _ _ _ _ (by rw [hlen]; omega),
        getD_set_ne _ _ _ _ _ (by omega)]
  refine ⟨⟨hfin0, hfinL⟩, hinf, ?_, ⟨by rw [hfin0]; rfl, by rw [hfinL]; rfl⟩,
    by rw [hinf]; exact specBEq_refl _⟩
  intro hag
  have hbase : (List.range (L + 1)).map (fun j =>
      if in_nontrivial_bonds bc L j then some (SVs.getD j (onesSpec K)) else none) =
    (List.range (L + 1)).map (fun j =>
      if in_nontrivial_bonds bc L j then some (SVs2.getD j (onesSpec K)) else none) := by
    apply List.map_congr_left
    intro j _
    by_cases hs : in_nontrivial_bonds bc L j = true
    · rw [if_pos hs, if_pos hs, hag j hs]
    · rw [if_neg hs, if_neg hs]
  unfold init_S_opt
  cases bc <;> rw [hbase]

/-- C10 witness: for a one-site infinite unit cell the supplied entry at
bond L = 1 does not influence the built spectrum list. -/
theorem claim_C10_init_spectra_witness :
    init_S_opt BCond.infinite 1 [onesSpec ℚ, Spectrum.mat matQ] =
      init_S_opt BCond.infinite 1 [onesSpec ℚ, onesSpec ℚ] :=
  (claim_C10_init_spectra 1 BCond.infinite [onesSpec ℚ, Spectrum.mat matQ]
      [onesSpec ℚ, onesSpec ℚ]).2.2.1
    (fun j hj => by
      match j with
      | 0 => rfl
      | m + 1 => simp [in_nontrivial_bonds] at hj)

theorem sanity_loop_ok_iff {K : Type} [CommRing K] (ext : ExtOps K)
    (st : MPSState K) (l : List ℕ) :
    sanity_loop ext st l = Except.ok () ↔
      ∀ x ∈ l, sanity_site_check ext st x = Except.ok () := by
  induction l with
  | nil => simp [sanity_loop]
  | cons a t ih =>
    unfold sanity_loop
    constructor
    · intro h
      cases hfa : sanity_site_check ext st a with
      | error e =>
        rw [hfa, errBindE] at h
        simp at h
      | ok u =>
        cases u
        rw [hfa, okBindE] at h
        intro x hx
        rcases List.mem_cons.mp hx with rfl | hxt
        · exact hfa
        · exact ih.mp h x hxt
    · intro h
      rw [h a (by simp), okBindE]
      exact ih.mpr (fun x hx => h x (by simp [hx]))

theorem labels_ok_of_mem {K : Type} (A : NpcArr K) (h1 : "vL" ∈ A.labels)
    (h2 : "vR" ∈ A.labels) (h3 : "p" ∈ A.labels) : labels_ok A = true := by
  simp [labels_ok]
  exact ⟨h1, h2, h3⟩

/-- C4 counterexample: a concrete one-site finite state whose tensor
carries the extra leg named extra besides vL, vR and p, with all other
invariants holding; test_sanity succeeds on it, so validation does not
raise on additional named legs as the claim asserts. -/
theorem claim_C4_cex :
    test_sanity extQ stX = Except.ok () ∧
    "extra" ∈ (stX.Bs.getD 0 (dummyArr ℚ)).labels ∧
    ¬ ("extra" ∈ ["vL", "vR", "p"]) := by
  refine ⟨rfl, by simp [stX, arrX], by decide⟩

/-- C4 (amended): the label validation of test_sanity is a containment
check: success of test_sanity implies that every tensor carries the three
required legs vL, vR, p, and any tensor containing those three legs passes
the label check regardless of additional named legs (extra legs are not
detected). -/
theorem claim_C4_label_validation {K : Type} [CommRing K] [DecidableEq K]
    (ext : ExtOps K) (st : MPSState K) :
    (test_sanity ext st = Except.ok () →
      ∀ i, i < st.Bs.length → labels_ok (st.Bs.getD i (dummyArr K)) = true) ∧
    (∀ A : NpcArr K, "vL" ∈ A.labels → "vR" ∈ A.labels → "p" ∈ A.labels →
      labels_ok A = true) := by
  constructor
  · intro h i hilen
    unfold test_sanity at h
    split at h
    · simp at h
    · split at h
      · simp at h
      · cases hforM : sanity_loop ext st (List.range st.Bs.length) with
        | error e =>
          rw [hforM, errBind] at h
          simp at h
        | ok u =>
          cases u
          have hcheck := (sanity_loop_ok_iff ext st _).mp hforM i
            (List.mem_range.mpr hilen)
          by_cases hl : labels_ok (st.Bs.getD i (dummyArr K)) = true
          · exact hl
          · rw [Bool.not_eq_true] at hl
            unfold sanity_site_check at hcheck
            rw [if_pos hl] at hcheck
            simp at hcheck
  · intro A h1 h2 h3
    exact labels_ok_of_mem A h1 h2 h3

/-- C4 witness: the amended statement applied to the concrete clean state
and to the concrete extra-leg tensor. -/
theorem claim_C4_label_validation_witness :
    labels_ok (stFin.Bs.getD 0 (dummyArr ℚ)) = true ∧ labels_ok arrX = true :=
  ⟨(claim_C4_label_validation extQ stFin).1 rfl 0 (by decide),
   (claim_C4_label_validation extQ stFin).2 arrX (by decide) (by decide) (by decide)⟩

theorem mps_init_bc {K : Type} [CommRing K] [DecidableEq K] (ext : ExtOps K)
    (sites : List ℕ) (Bs : List (NpcArr K)) (SVs : List (Spectrum K))
    (bc : BCond) (fa : FormArg) {r : MPSState K}
    (h : mps_init ext sites Bs SVs bc fa = Except.ok r) : r.bc = bc := by
  unfold mps_init at h
  split at h
  · simp at h
  · cases hS : lift_options (init_S_opt bc sites.length SVs) with
    | error e =>
      rw [hS, errBind] at h
      simp at h
    | ok Ss =>
      rw [hS, okBind] at h
      cases ht : test_sanity ext (mps_from_parts sites Bs Ss bc fa) with
      | error e =>
        rw [ht, errBind] at h
        simp at h
      | ok u =>
        cases u
        rw [ht, okBind] at h
        injection h with h
        subst h
        rfl

theorem convert_step_pres {K : Type} [CommRing K] (ext : ExtOps K)
    (nfs : List (Option (ℚ × ℚ))) {st st1 : MPSState K} {i : ℕ}
    (h : convert_step ext nfs st i = Except.ok st1) :
    st1.bc = st.bc ∧ st1.sites = st.sites := by
  unfold convert_step at h
  cases hg : get_B_parsed ext st (i : ℤ) (nfs.getD i none) false default_cutoff with
  | error e =>
    rw [hg, errBind] at h
    simp at h
  | ok newB =>
    rw [hg, okBind] at h
    unfold set_B_parsed at h
    cases hv : toValidIndex st (i : ℤ) with
    | error e =>
      rw [hv, errBind] at h
      simp at h
    | ok iv =>
      rw [hv, okBind] at h
      injection h with h
      subst h
      exact ⟨rfl, rfl⟩

theorem foldlM_convert_bc {K : Type} [CommRing K] (ext : ExtOps K)
    (nfs : List (Option (ℚ × ℚ))) :
    ∀ (l : List ℕ) (st st1 : MPSState K),
      l.foldlM (convert_step ext nfs) st = Except.ok st1 → st1.bc = st.bc := by
  intro l
  induction l with
  | nil =>
    intro st st1 h
    injection h with h
    subst h
    rfl
  | cons a t ih =>
    intro st st1 h
    rw [List.foldlM_cons] at h
    cases hs : convert_step ext nfs st a with
    | error e =>
      rw [hs, errBind] at h
      simp at h
    | ok s2 =>
      rw [hs, okBind] at h
      rw [ih s2 st1 h, (convert_step_pres ext nfs hs).1]

theorem convert_form_bc {K : Type} [CommRing K] (ext : ExtOps K)
    {st st1 : MPSState K} {f : FormArg}
    (h : convert_form ext st f = Except.ok st1) : st1.bc = st.bc :=
  foldlM_convert_bc ext (parse_form st.L f) (List.range st.L) st st1 h

/-- C8: the from_full factory fails with the invalid-form error for every
requested form that is not one of the four canonical names (None and
explicit exponent pairs included), before looking at the input (for every
SVD result, including failing ones); for a canonical name it requires at
least two sites, builds the state with finite boundary in B form from the
SVD sweep, and converts afterwards exactly when a form other than B was
requested; every successfully built state has finite boundary. -/
theorem claim_C8_from_full_guard {K : Type} [CommRing K] [DecidableEq K]
    (ext : ExtOps K) (sites : List ℕ)
    (svd_sweep : Except Err (List (NpcArr K) × List (Spectrum K)))
    (f : FormArg) :
    (is_canonical_name f = false →
      from_full ext sites svd_sweep f =
        Except.error (Err.valueError ("Invalid form"))) ∧
    (is_canonical_name f = true → sites.length < 2 →
      from_full ext sites svd_sweep f = Except.error Err.assertionError) ∧
    (is_canonical_name f = true → 2 ≤ sites.length →
      from_full ext sites svd_sweep f =
        svd_sweep.bind (fun BS =>
          (mps_init ext sites BS.1 BS.2 BCond.finite FormArg.B).bind
            (fun res =>
              if f ≠ FormArg.B then convert_form ext res f
              else Except.ok res))) ∧
    (∀ st, from_full ext sites svd_sweep f = Except.ok st →
      st.bc = BCond.finite) := by
  refine ⟨?_, ?_, ?_, ?_⟩
  · intro h
    unfold from_full
    rw [if_pos h]
  · intro h hlen
    unfold from_full
    rw [if_neg (by simp [h]), if_pos hlen]
  · intro h hlen
    unfold from_full
    rw [if_neg (by simp [h]), if_neg (by omega)]
    rfl
  · intro st h
    unfold from_full at h
    split at h
    · simp at h
    · split at h
      · simp at h
      · cases hsv : svd_sweep with
        | error e =>
          rw [hsv, errBind] at h
          simp at h
        | ok BS =>
          rw [hsv, okBind] at h
          cases hin : mps_init ext sites BS.1 BS.2 BCond.finite FormArg.B with
          | error e =>
            rw [hin, errBind] at h
            simp at h
          | ok res =>
            rw [hin, okBind] at h
            have hres : res.bc = BCond.finite := mps_init_bc ext sites BS.1 BS.2 _ _ hin
            by_cases hf : f ≠ FormArg.B
            · rw [if_pos hf] at h
              rw [convert_form_bc ext h, hres]
            · rw [if_neg hf] at h
              injection h with h
              subst h
              exact hres

/-- C8 witness: the guard clause at the explicit exponent pair (0, 1),
which is not a canonical name even though it is numerically the B form. -/
theorem claim_C8_from_full_guard_witness :
    from_full extQ [2, 2] (Except.ok ([arr1, arr1],
        [onesSpec ℚ, onesSpec ℚ, onesSpec ℚ])) (FormArg.pair 0 1) =
      Except.error (Err.valueError ("Invalid form")) :=
  (claim_C8_from_full_guard extQ [2, 2]
    (Except.ok ([arr1, arr1], [onesSpec ℚ, onesSpec ℚ, onesSpec ℚ]))
    (FormArg.pair 0 1)).1 rfl
